import Mathlib

/-!
Verification of the l3pp logging library (templated variant: `basic_logger`,
`basic_log_stream`, `basic_stream_sink`, `basic_formatter`, `basic_field`,
`basic_template_formatter`) against its natural-language specification.

The C++ sources are shallowly embedded: enumerations become inductives,
classes become structures, member functions become Lean functions, and the
process-wide logger registry becomes explicit state passing.  C++ enum
comparisons are modelled through the underlying numeric values (`toNat`).
Fallible or undefined-behaviour paths (null-pointer dereference) are
modelled with `Option`, `none` marking the undefined case.
-/

/-- `enum class LogLevel` from l3pp.h.  Underlying values are the
declaration order, exposed by `toNat`.  `DEFAULT = WARN` and
`ALL = TRACE` are aliases for the same enumerator values. -/
inductive LogLevel where
  | TRACE
  | DEBUG
  | INFO
  | WARN
  | ERR
  | FATAL
  | OFF
  | INHERIT
deriving DecidableEq

/-- Underlying integral value of the C++ enumerator (declaration order). -/
def LogLevel.toNat : LogLevel → Nat
  | .TRACE => 0
  | .DEBUG => 1
  | .INFO => 2
  | .WARN => 3
  | .ERR => 4
  | .FATAL => 5
  | .OFF => 6
  | .INHERIT => 7

/-- Alias enumerator `DEFAULT = WARN`. -/
def LogLevel.DEFAULT : LogLevel := .WARN

/-- Alias enumerator `ALL = TRACE`. -/
def LogLevel.ALL : LogLevel := .TRACE

/-- `operator<<(std::basic_ostream, LogLevel)` from impl/logging.h: the
printed name of a level; the `default` branch of the switch prints "???". -/
def LogLevel.text : LogLevel → String
  | .TRACE => "TRACE"
  | .DEBUG => "DEBUG"
  | .INFO => "INFO"
  | .WARN => "WARN"
  | .ERR => "ERROR"
  | .FATAL => "FATAL"
  | .OFF => "OFF"
  | .INHERIT => "???"

/-- A `basic_stream_sink`: a severity floor (`level`, initialised to
`LogLevel::ALL` by both constructors) plus an identity tag standing for the
wrapped output stream object. -/
structure Sink where
  sid : Nat
  level : LogLevel
deriving DecidableEq

/-- `basic_stream_sink::log` writes the formatted entry to the stream iff
`context.level >= this->level`; this predicate is true iff the write
happens. -/
def Sink.writes (s : Sink) (lvl : LogLevel) : Bool :=
  decide (s.level.toNat ≤ lvl.toNat)

/-- `log_context` from context.h: source location of an emission. -/
structure log_context where
  filename : String
  line : Nat
  funcname : String
deriving DecidableEq

/-- The default constructor `log_context()` : filename "", line 0,
funcname "". -/
def log_context.default : log_context := ⟨"", 0, ""⟩

/-- A node of the logger tree (`basic_logger`).  The `parent` shared
pointer of the C++ class is represented structurally: a `child` carries its
parent subtree, the `root` has none (null parent).  The root constructor
sets name "", level `DEFAULT`, additive true; the child constructor sets
level `INHERIT`, additive true — both are free here since the claims also
quantify over reconfigured loggers. -/
inductive LoggerNode where
  | root (level : LogLevel) (sinks : List Sink) (additive : Bool)
  | child (name : String) (level : LogLevel) (sinks : List Sink)
      (additive : Bool) (parent : LoggerNode)
deriving DecidableEq

/-- The stored (possibly `INHERIT`) level field of a logger. -/
def LoggerNode.storedLevel : LoggerNode → LogLevel
  | .root lvl _ _ => lvl
  | .child _ lvl _ _ _ => lvl

/-- The sink list of a logger. -/
def LoggerNode.nodeSinks : LoggerNode → List Sink
  | .root _ s _ => s
  | .child _ _ s _ _ => s

/-- `basic_logger::getName`: the root constructor leaves the name empty. -/
def LoggerNode.getName : LoggerNode → String
  | .root _ _ _ => ""
  | .child n _ _ _ _ => n

/-- The stored level of the root ancestor of a logger. -/
def LoggerNode.rootStored : LoggerNode → LogLevel
  | .root lvl _ _ => lvl
  | .child _ _ _ _ p => p.rootStored

/-- Strict ancestors of a logger, nearest first. -/
def LoggerNode.ancestors : LoggerNode → List LoggerNode
  | .root _ _ _ => []
  | .child _ _ _ _ p => p :: p.ancestors

/-- `basic_logger::getLevel`: if the stored level is `INHERIT`, recurse
into the parent, else return the stored level.  On a root whose stored
level is `INHERIT` the C++ code dereferences a null parent pointer; that
undefined case is `none` (it is unreachable under the class invariant:
the root is constructed with a concrete level and `setLevel` refuses to
store `INHERIT` on it). -/
def LoggerNode.getLevel? : LoggerNode → Option LogLevel
  | .root lvl _ _ => if lvl = .INHERIT then none else some lvl
  | .child _ lvl _ _ p => if lvl = .INHERIT then p.getLevel? else some lvl

/-- `basic_logger::setLevel`: `if (level == INHERIT && !parent) return;`
then store the level.  Only the root has a null parent. -/
def LoggerNode.setLevel : LoggerNode → LogLevel → LoggerNode
  | .root l s a, lvl => if lvl = .INHERIT then .root l s a else .root lvl s a
  | .child n _ s a p, lvl => .child n lvl s a p

/-- `basic_logger::logEntry` composed with `basic_stream_sink::log`:
the list of sink writes that actually happen, in call order.  Every sink of
the current node receives a `sink->log` call (which writes iff the floor
passes), then, `if (additive && parent)`, the parent fans out too.  The
root has a null parent, so recursion stops there regardless of the flag. -/
def LoggerNode.logEntry : LoggerNode → LogLevel → List Sink
  | .root _ sinks _, lvl => sinks.filter (fun s => s.writes lvl)
  | .child _ _ sinks add p, lvl =>
      sinks.filter (fun s => s.writes lvl) ++
        (if add then p.logEntry lvl else [])

/-- `basic_logger::log(level, msg, context)` — the eager emission path:
`if (level < getLevel()) return;` (discard, no writes), otherwise construct
the entry and fan it out via `logEntry`.  Result: the list of sink writes;
`none` propagates the undefined root-INHERIT case of `getLevel`. -/
def LoggerNode.log? (L : LoggerNode) (lvl : LogLevel) : Option (List Sink) :=
  (L.getLevel?).map fun eff =>
    if lvl.toNat < eff.toNat then [] else L.logEntry lvl

/-- Specification-side definition (from the spec's words, to be compared
with `logEntry`): the sinks attached on the chain from L upward reached by
only crossing additive nodes; propagation stops at the first non-additive
node, whose own sinks are still included. -/
def LoggerNode.chainSinks : LoggerNode → List Sink
  | .root _ sinks _ => sinks
  | .child _ _ sinks add p => sinks ++ (if add then p.chainSinks else [])

/-- All sinks attached to a logger or any of its ancestors, ignoring
additivity. -/
def LoggerNode.allSinksUpward : LoggerNode → List Sink
  | .root _ sinks _ => sinks
  | .child _ _ sinks _ p => sinks ++ p.allSinksUpward

/-- Specification-side definition: the sinks attached to strict ancestors
lying above the first non-additive node of the chain — the sinks the spec
says must never receive an entry submitted at or below that node. -/
def LoggerNode.blockedSinks : LoggerNode → List Sink
  | .root _ _ _ => []
  | .child _ _ _ add p => if add then p.blockedSinks else p.allSinksUpward

/-- Specification-side definition: the stored concrete level of the
nearest strict ancestor whose stored level is not `INHERIT`. -/
def LoggerNode.nearestConcreteAncestorLevel (L : LoggerNode) : Option LogLevel :=
  (L.ancestors.find? (fun a => decide (a.storedLevel ≠ .INHERIT))).map
    (fun a => a.storedLevel)

/-- `basic_log_entry` from context.h: a `log_context` plus capture
timestamp, owning-logger back-reference, level and message.  The timestamp
is modelled as milliseconds on an abstract clock (its value plays no role
in any claim below, only the WallTime field formatter reads it). -/
structure basic_log_entry where
  filename : String
  line : Nat
  funcname : String
  timestampMs : Nat
  logger : LoggerNode
  level : LogLevel
  msg : String
deriving DecidableEq

/-- The entry constructor without message argument (message default
constructed to ""), as used by `basic_logger::log(level, context)`. -/
def basic_log_entry.make (ctx : log_context) (L : LoggerNode)
    (lvl : LogLevel) : basic_log_entry :=
  ⟨ctx.filename, ctx.line, ctx.funcname, 0, L, lvl, ""⟩

/-- `basic_log_stream` from logger.h: an entry plus the
`std::basic_ostringstream` accumulation buffer. -/
structure basic_log_stream where
  entry : basic_log_entry
  stream : String
deriving DecidableEq

/-- `basic_logger::log(level, context)` — the stream emission path: it
constructs the stream around a fresh entry unconditionally, with no level
check whatsoever. -/
def LoggerNode.logStream (L : LoggerNode) (lvl : LogLevel)
    (ctx : log_context) : basic_log_stream :=
  ⟨basic_log_entry.make ctx L lvl, ""⟩

/-- `operator<<(basic_log_stream const&, T const&)`: streams the value
into the buffer.  Values are modelled already rendered to text by the
underlying `std::ostream` insertion. -/
def basic_log_stream.insert (st : basic_log_stream) (v : String) :
    basic_log_stream :=
  ⟨st.entry, st.stream ++ v⟩

/-- `~basic_log_stream` (impl/logger.h): `entry.msg = stream.str();`
then `entry.logger->logEntry(entry);` — unconditionally.  This is the
entry the destructor submits. -/
def basic_log_stream.dtorEntry (st : basic_log_stream) : basic_log_entry :=
  ⟨st.entry.filename, st.entry.line, st.entry.funcname, st.entry.timestampMs,
    st.entry.logger, st.entry.level, st.stream⟩

/-- The sink writes performed by the destructor's `logEntry` call. -/
def basic_log_stream.dtorWrites (st : basic_log_stream) : List Sink :=
  st.dtorEntry.logger.logEntry st.dtorEntry.level

/-- The move constructor of `basic_log_stream` is declared `= default`:
memberwise move.  The result is the pair (move target, moved-from
source).  The target takes the buffer and message; in the moved-from
source the strings are left empty while the trivially-copied members
(logger pointer, level, location, timestamp) keep their values.  The
moved-from object is still a live object whose destructor will run. -/
def basic_log_stream.moveCtor (st : basic_log_stream) :
    basic_log_stream × basic_log_stream :=
  (⟨st.entry, st.stream⟩,
   ⟨⟨st.entry.filename, st.entry.line, st.entry.funcname,
      st.entry.timestampMs, st.entry.logger, st.entry.level, ""⟩, ""⟩)

/-- A logger with one sink (floor `ALL`, as both `basic_stream_sink`
constructors set) used by the concrete stream scenarios. -/
def scenarioLogger : LoggerNode := .root .TRACE [⟨0, .TRACE⟩] true

/-- The stream built by `logger.info() << "x=" << 5 << " done"`. -/
def scenarioStream : basic_log_stream :=
  ((scenarioLogger.logStream .INFO log_context.default).insert "x=").insert
      (toString (5 : Nat)) |>.insert " done"

/-- C++ scope semantics for the plain scenario: one stream object is
constructed and goes out of scope, so exactly one destructor runs; the
emissions are the entries submitted by those destructor runs, in
destruction order. -/
def scenarioPlainEmissions : List basic_log_entry :=
  [scenarioStream.dtorEntry]

/-- C++ scope semantics for the move scenario: the stream is
move-constructed into a second object before destruction; both objects
are destroyed at scope exit (in reverse construction order: the move
target first, then the moved-from original), and each destructor of
`basic_log_stream` submits its entry unconditionally. -/
def scenarioMoveEmissions : List basic_log_entry :=
  [scenarioStream.moveCtor.1.dtorEntry, scenarioStream.moveCtor.2.dtorEntry]

/-- `enum class Field` from formatter.h (named LogField here since Mathlib already declares Field). -/
inductive LogField where
  | FileName
  | FilePath
  | Line
  | Function
  | LoggerName
  | Message
  | LogLevel
  | WallTime
deriving DecidableEq

/-- `enum class Justification` from formatter.h.  The declared meaning is
LEFT = "Left align field", RIGHT = "Right align field". -/
inductive Justification where
  | LEFT
  | RIGHT
deriving DecidableEq

/-- The formatting state of a `std::basic_ostream` as far as
`basic_field::stream` manipulates it: field width (`setw`), fill
character (`setfill`) and the adjustfield flag (`std::left` /
`std::right`; `leftAdj = false` is the stream default, right
adjustment). -/
structure FmtState where
  width : Nat
  fill : Char
  leftAdj : Bool

/-- `os << std::left`. -/
def FmtState.setLeft (st : FmtState) : FmtState := ⟨st.width, st.fill, true⟩

/-- `os << std::right`. -/
def FmtState.setRight (st : FmtState) : FmtState := ⟨st.width, st.fill, false⟩

/-- The `switch (j)` in `basic_field::stream` (impl/formatter.h).  The
switch contains no `break` statements, so `case LEFT` executes
`os << std::left` and then falls through into `case RIGHT`, which
executes `os << std::right`; for `RIGHT` only `os << std::right` runs.
Either way the stream ends right-adjusted. -/
def FmtState.applyJust (st : FmtState) : Justification → FmtState
  | .LEFT => (st.setLeft).setRight
  | .RIGHT => st.setRight

/-- Standard formatted output of a string under the stream state: pad
with the fill character up to the field width, on the left when
right-adjusted and on the right when left-adjusted; content at least as
wide as the width is written unchanged (never truncated). -/
def FmtState.padOut (st : FmtState) (s : String) : String :=
  if st.width ≤ s.length then s
  else if st.leftAdj then
    s ++ String.mk (List.replicate (st.width - s.length) st.fill)
  else
    String.mk (List.replicate (st.width - s.length) st.fill) ++ s

/-- Index of the last occurrence of `c` in the list, `none` when absent —
the semantics of both `std::string::rfind` (npos mapped to `none`) and
`strrchr` (null result mapped to `none`). -/
def lastIdxOf (c : Char) : List Char → Option Nat
  | [] => none
  | a :: as =>
      match lastIdxOf c as with
      | some i => some (i + 1)
      | none => if a = c then some 0 else none

/-- The text produced for one `Field` of an entry by the switch in
`basic_field::stream` (non-Windows branch: the path separator is '/').
For `FileName` the code computes `strrchr(context.filename, '/') + 1`;
when the filename contains no separator, `strrchr` returns a null
pointer and the increment-and-print is undefined behaviour, modelled as
`none`.  `startMs` is the process start time captured by
`detail::GetStartTime`. -/
def fieldText (startMs : Nat) : LogField → basic_log_entry → Option String
  | .FileName, e =>
      match lastIdxOf '/' e.filename.data with
      | none => none
      | some i => some (String.mk (e.filename.data.drop (i + 1)))
  | .FilePath, e => some e.filename
  | .Line, e => some (toString e.line)
  | .Function, e => some e.funcname
  | .LoggerName, e => some e.logger.getName
  | .Message, e => some e.msg
  | .LogLevel, e => some e.level.text
  | .WallTime, e => some (toString ((e.timestampMs : Int) - (startMs : Int)))

/-- `basic_field<char_t, field, Width, j, Fill>::stream`: set the width,
the fill and (through the broken switch) the adjustment, then perform one
formatted output of the field's text. -/
def basic_field_stream (startMs : Nat) (field : LogField) (Width : Nat)
    (j : Justification) (Fill : Char) (e : basic_log_entry) : Option String :=
  (fieldText startMs field e).map
    (FmtState.padOut ((FmtState.mk Width Fill false).applyJust j))

/-- One element of a `basic_template_formatter`: a `basic_field`
(with its template parameters) or an arbitrary literal streamed through
the generic `formatElement` overload.  Each element performs exactly one
formatted output, which consumes the width, so rendering the elements
independently is faithful (a literal is always written under width 0). -/
inductive FmtElem where
  | field (f : LogField) (width : Nat) (j : Justification) (fill : Char)
  | lit (s : String)

/-- `formatElement` dispatch of `basic_template_formatter`. -/
def FmtElem.render (startMs : Nat) (e : basic_log_entry) :
    FmtElem → Option String
  | .field f w j fill => basic_field_stream startMs f w j fill e
  | .lit s => some s

/-- `basic_template_formatter::format`: stream every element into one
string stream in declaration order and return the accumulated string. -/
def basic_template_formatter_format (startMs : Nat) (elems : List FmtElem)
    (e : basic_log_entry) : Option String :=
  (elems.mapM (FmtElem.render startMs e)).map (String.join)

/-- `basic_formatter::format` (impl/formatter.h): stream
`context.level << " - " << context.msg << '\n'`. -/
def basic_formatter_format (e : basic_log_entry) : String :=
  e.level.text ++ " - " ++ e.msg ++ "\n"

/-- Logger names in the registry model are character lists, so that the
recursion of `getLogger` on name prefixes is structural on length. -/
abbrev CName := List Char

/-- `name.substr(0, name.rfind('.'))` when a dot exists, else the empty
name: the text before the last dot.  By the spec this is the longest
proper dotted prefix of a name (the root's name for prefix-free names). -/
def parentName (s : CName) : CName :=
  match lastIdxOf '.' s with
  | none => []
  | some k => s.take k

/-- The dot-separated prefix chain of a name: the name itself, then its
longest proper dotted prefix, and so on; the empty (root) name is not
included. -/
def dottedPrefixChain (s : CName) : List CName :=
  if h : s = [] then [] else s :: dottedPrefixChain (parentName s)
termination_by s.length
decreasing_by
  have key : ∀ (s : CName) (k : Nat), lastIdxOf '.' s = some k → k < s.length := by
    intro s
    induction s with
    | nil => intro k hk; simp [lastIdxOf] at hk
    | cons a as ih =>
      intro k hk
      simp only [lastIdxOf] at hk
      cases h2 : lastIdxOf '.' as with
      | some i =>
        rw [h2] at hk
        have hik : i + 1 = k := by simpa using hk
        have := ih i h2
        simp only [List.length_cons]
        omega
      | none =>
        rw [h2] at hk
        by_cases ha : a = '.'
        · have hk0 : k = 0 := by simp [ha] at hk; omega
          simp only [hk0, List.length_cons]
          omega
        · simp [ha] at hk
  unfold parentName
  cases hidx : lastIdxOf '.' s with
  | none => simpa using List.length_pos.mpr h
  | some k =>
    have hk := key s k hidx
    simp only [List.length_take]
    omega

/-- One registered logger: identity (the shared-pointer identity of the
C++ object, as a numeric id), dotted name, the identity of the parent
logger, and the fields the `basic_logger(name, parent)` constructor
initialises (stored level `INHERIT`, additive true). -/
structure RegLogger where
  rid : Nat
  name : CName
  parentId : Nat
  level : LogLevel
  additive : Bool
deriving DecidableEq

/-- The process-wide registry `detail::GetLoggers()`: the map from names
to loggers, modelled as an association list in creation order, plus the
next fresh identity.  The root logger is not in the map (it is a separate
static singleton); its identity is 0. -/
structure Registry where
  loggers : List RegLogger
  nextId : Nat
deriving DecidableEq

/-- The initial registry: empty map; id 0 is reserved for the root. -/
def Registry.empty : Registry := ⟨[], 1⟩

/-- `loggers.find(name)` on the registry map. -/
def Registry.findName? (reg : Registry) (name : CName) : Option RegLogger :=
  reg.loggers.find? (fun l => decide (l.name = name))

/-- `loggers.emplace(name, new basic_logger(name, parent))`: register a
fresh logger for `name` with the given parent identity; returns the new
logger's identity and the updated registry. -/
def Registry.insertNew (reg : Registry) (name : CName) (pid : Nat) :
    Nat × Registry :=
  (reg.nextId,
   ⟨reg.loggers ++ [⟨reg.nextId, name, pid, .INHERIT, true⟩], reg.nextId + 1⟩)

/-- `basic_logger::getLogger(name)` (impl/logger.h): the empty name
designates the root (identity 0); a registered name returns the
registered instance; otherwise the parent is the root when the name has
no dot and is obtained recursively for the text before the last dot, and
a fresh logger is registered.  Returns the identity of the resulting
logger and the updated registry. -/
def Registry.getLogger (reg : Registry) (name : CName) : Nat × Registry :=
  if name = [] then (0, reg)
  else
    match reg.findName? name with
    | some l => (l.rid, reg)
    | none =>
      match h : lastIdxOf '.' name with
      | none => reg.insertNew name 0
      | some k =>
        let pr := reg.getLogger (name.take k)
        pr.2.insertNew name pr.1
termination_by name.length
decreasing_by
  have key : ∀ (s : CName) (k : Nat), lastIdxOf '.' s = some k → k < s.length := by
    intro s
    induction s with
    | nil => intro k hk; simp [lastIdxOf] at hk
    | cons a as ih =>
      intro k hk
      simp only [lastIdxOf] at hk
      cases h2 : lastIdxOf '.' as with
      | some i =>
        rw [h2] at hk
        have hik : i + 1 = k := by simpa using hk
        have := ih i h2
        simp only [List.length_cons]
        omega
      | none =>
        rw [h2] at hk
        by_cases ha : a = '.'
        · have hk0 : k = 0 := by simp [ha] at hk; omega
          simp only [hk0, List.length_cons]
          omega
        · simp [ha] at hk
  have hk := key name k h
  simp only [List.length_take]
  omega

/-- A name has a registered logger. -/
def Registry.registered (reg : Registry) (name : CName) : Prop :=
  ∃ l, l ∈ reg.loggers ∧ l.name = name

instance (reg : Registry) (name : CName) :
    Decidable (reg.registered name) := by
  unfold Registry.registered
  infer_instance

/-- Well-formedness of the registry state: names are distinct and
nonempty (the root is kept outside the map), identities are positive
(0 is the root) and below the allocation counter. -/
def Registry.wf (reg : Registry) : Prop :=
  (reg.loggers.map (fun l => l.name)).Nodup ∧
  (∀ l, l ∈ reg.loggers → l.name ≠ []) ∧
  (∀ l, l ∈ reg.loggers → 0 < l.rid ∧ l.rid < reg.nextId) ∧
  1 ≤ reg.nextId

instance (reg : Registry) : Decidable reg.wf := by
  unfold Registry.wf
  infer_instance

/-- The prefix-parent invariant: every registered logger's parent
reference is the logger registered for its longest proper dotted prefix,
or the root (identity 0) when that prefix is empty. -/
def Registry.parentInv (reg : Registry) : Prop :=
  ∀ l, l ∈ reg.loggers →
    (parentName l.name = [] → l.parentId = 0) ∧
    (parentName l.name ≠ [] →
      ∃ m, m ∈ reg.loggers ∧ m.name = parentName l.name ∧ l.parentId = m.rid)

instance (reg : Registry) : Decidable reg.parentInv := by
  unfold Registry.parentInv
  infer_instance

/-- The registry reached from the initial state by a sequence of
`getLogger` calls. -/
def runGetLoggers (names : List CName) : Registry :=
  names.foldl (fun r nm => (r.getLogger nm).2) Registry.empty

/-- Postcondition of a single `getLogger` call on registry `reg` with
argument `name`, about the returned identity `out.1` and updated registry
`out.2`: well-formedness and the prefix-parent invariant are preserved,
identities only grow, the map grows by appending loggers named by dotted
prefixes of `name`, the empty name yields the root identity and an
untouched registry, a nonempty name yields the identity of a logger
registered under exactly that name, and the registered names afterwards
are the previously registered ones plus precisely the dotted prefix chain
of `name`. -/
def GLPost (reg : Registry) (name : CName) (out : Nat × Registry) : Prop :=
  out.2.wf ∧ out.2.parentInv ∧
  reg.nextId ≤ out.2.nextId ∧
  (∃ tail, out.2.loggers = reg.loggers ++ tail ∧
    ∀ l, l ∈ tail → l.name ∈ dottedPrefixChain name ∧ reg.nextId ≤ l.rid) ∧
  (name = [] → out.1 = 0 ∧ out.2 = reg) ∧
  (name ≠ [] → ∃ l, l ∈ out.2.loggers ∧ l.name = name ∧ l.rid = out.1) ∧
  (∀ p, out.2.registered p ↔ (reg.registered p ∨ p ∈ dottedPrefixChain name))

/-- Fixture: a root logger holding one sink with floor `ALL`. -/
def c1Parent : LoggerNode := .root .WARN [⟨1, .TRACE⟩] true

/-- Fixture: a non-additive child of `c1Parent` with one own sink. -/
def c1L : LoggerNode := .child "a.b" .INHERIT [⟨2, .TRACE⟩] false c1Parent

/-- Fixture: a logger named "ab" under a default root. -/
def c3Logger : LoggerNode := .child "ab" .INHERIT [] true (.root .WARN [] true)

/-- Fixture: an entry of `c3Logger` with message "hi". -/
def c3Entry : basic_log_entry := ⟨"src/x.cpp", 7, "f", 0, c3Logger, .INFO, "hi"⟩

/-- Fixture: the template formatter of the claim —
LoggerName field (width 6, LEFT, fill '.'), literal " | ", Message field
(with the default template arguments: width 0, RIGHT, fill ' '). -/
def c3Elems : List FmtElem :=
  [.field .LoggerName 6 .LEFT '.', .lit " | ", .field .Message 0 .RIGHT ' ']

/-- Fixture: a FATAL entry with message "boom". -/
def c9Entry : basic_log_entry := ⟨"", 0, "", 0, .root .WARN [] true, .FATAL, "boom"⟩

/-- Fixture: an INHERIT chain of depth two over a root stored at WARN. -/
def c6L : LoggerNode :=
  .child "a.b" .INHERIT [] true (.child "a" .INHERIT [] true (.root .WARN [] true))

/-- Helper: `getLevel` never returns the INHERIT sentinel — the value it
returns is always a concrete stored level. -/
theorem getLevel?_ne_inherit (L : LoggerNode) (eff : LogLevel)
    (h : L.getLevel? = some eff) : eff ≠ .INHERIT := by
  induction L with
  | root l s a =>
    simp only [LoggerNode.getLevel?] at h
    split at h
    · exact absurd h (by simp)
    · next hl =>
      simp only [Option.some.injEq] at h
      exact h ▸ hl
  | child n l s a p ih =>
    simp only [LoggerNode.getLevel?] at h
    split at h
    · exact ih h
    · next hl =>
      simp only [Option.some.injEq] at h
      exact h ▸ hl

/-- Helper: fan-out characterisation — a sink write happens during
`logEntry` exactly for the sinks attached along the additive chain whose
floor passes. -/
theorem mem_logEntry_iff (L : LoggerNode) (lvl : LogLevel) (S : Sink) :
    S ∈ L.logEntry lvl ↔ S ∈ L.chainSinks ∧ S.writes lvl = true := by
  induction L with
  | root l sinks a =>
    simp [LoggerNode.logEntry, LoggerNode.chainSinks, List.mem_filter]
  | child n l sinks a p ih =>
    simp only [LoggerNode.logEntry, LoggerNode.chainSinks, List.mem_append,
      List.mem_filter]
    cases a <;> simp [ih] <;> tauto

/-- Claim C1: an entry submitted to logger L at level lvl is delivered to
sink S iff S is attached on the chain from L upward that crosses only
additive nodes (the first non-additive node's own sinks included),
lvl is at least L's effective level, and lvl is at least S's own floor;
consequently a sink attached only to strict ancestors above the first
non-additive node never receives the entry. -/
theorem claim_C1 (L : LoggerNode) (lvl eff : LogLevel) (S : Sink)
    (ds : List Sink) (heff : L.getLevel? = some eff)
    (hds : L.log? lvl = some ds) :
    (S ∈ ds ↔ (S ∈ L.chainSinks ∧ eff.toNat ≤ lvl.toNat ∧
        S.level.toNat ≤ lvl.toNat)) ∧
    (S ∈ L.blockedSinks → S ∉ L.chainSinks → S ∉ ds) := by
  have hds' : ds = if lvl.toNat < eff.toNat then [] else L.logEntry lvl := by
    unfold LoggerNode.log? at hds
    rw [heff] at hds
    simpa using hds.symm
  have hiff : S ∈ ds ↔ (S ∈ L.chainSinks ∧ eff.toNat ≤ lvl.toNat ∧
      S.level.toNat ≤ lvl.toNat) := by
    subst hds'
    by_cases hlt : lvl.toNat < eff.toNat
    · simp only [if_pos hlt, List.not_mem_nil, false_iff]
      rintro ⟨-, h2, -⟩
      omega
    · rw [if_neg hlt, mem_logEntry_iff]
      constructor
      · rintro ⟨h1, h2⟩
        refine ⟨h1, by omega, ?_⟩
        simpa [Sink.writes] using h2
      · rintro ⟨h1, -, h3⟩
        refine ⟨h1, ?_⟩
        simpa [Sink.writes] using h3
  exact ⟨hiff, fun _ hnc hm => hnc (hiff.mp hm).1⟩

/-- Witness for C1 at a concrete configuration: a non-additive child with
its own sink, whose root ancestor's sink is blocked. -/
theorem claim_C1_witness :
    c1L.getLevel? = some .WARN ∧
    c1L.log? .ERR = some [⟨2, .TRACE⟩] ∧
    (((⟨1, .TRACE⟩ : Sink) ∈ [(⟨2, .TRACE⟩ : Sink)]) ↔
      ((⟨1, .TRACE⟩ : Sink) ∈ c1L.chainSinks ∧
        LogLevel.WARN.toNat ≤ LogLevel.ERR.toNat ∧
        (⟨1, .TRACE⟩ : Sink).level.toNat ≤ LogLevel.ERR.toNat)) ∧
    ((⟨1, .TRACE⟩ : Sink) ∈ c1L.blockedSinks →
      (⟨1, .TRACE⟩ : Sink) ∉ c1L.chainSinks →
      (⟨1, .TRACE⟩ : Sink) ∉ [(⟨2, .TRACE⟩ : Sink)]) :=
  ⟨by decide, by decide,
    claim_C1 c1L .ERR .WARN ⟨1, .TRACE⟩ [⟨2, .TRACE⟩] (by decide) (by decide)⟩

/-- Claim C6: a logger with a concrete stored level has that level as its
effective level; a logger stored at INHERIT resolves to the stored level
of the nearest ancestor with a concrete stored level, through arbitrarily
deep INHERIT chains (resolution is total here by construction), provided
the root's stored level is concrete. -/
theorem claim_C6 (L : LoggerNode) (hroot : L.rootStored ≠ .INHERIT) :
    (L.storedLevel ≠ .INHERIT → L.getLevel? = some L.storedLevel) ∧
    (L.storedLevel = .INHERIT →
      ∃ c, L.nearestConcreteAncestorLevel = some c ∧ L.getLevel? = some c) := by
  induction L with
  | root l s a =>
    refine ⟨fun h => ?_, fun h => ?_⟩
    · simp only [LoggerNode.storedLevel] at h
      simp [LoggerNode.getLevel?, h, LoggerNode.storedLevel]
    · simp only [LoggerNode.storedLevel] at h
      simp only [LoggerNode.rootStored] at hroot
      exact absurd h hroot
  | child n l s a p ih =>
    have hrp : p.rootStored ≠ .INHERIT := by
      simpa [LoggerNode.rootStored] using hroot
    refine ⟨fun h => ?_, fun h => ?_⟩
    · simp only [LoggerNode.storedLevel] at h
      simp [LoggerNode.getLevel?, h, LoggerNode.storedLevel]
    · simp only [LoggerNode.storedLevel] at h
      subst h
      by_cases hp : p.storedLevel = .INHERIT
      · obtain ⟨c, hc1, hc2⟩ := (ih hrp).2 hp
        refine ⟨c, ?_, by simpa [LoggerNode.getLevel?] using hc2⟩
        simpa [LoggerNode.nearestConcreteAncestorLevel, LoggerNode.ancestors,
          List.find?_cons, hp] using hc1
      · have h1 := (ih hrp).1 hp
        refine ⟨p.storedLevel, ?_, by simpa [LoggerNode.getLevel?] using h1⟩
        simp [LoggerNode.nearestConcreteAncestorLevel, LoggerNode.ancestors,
          List.find?_cons, hp]

/-- Witness for C6: a two-deep INHERIT chain resolves to the root's WARN. -/
theorem claim_C6_witness :
    c6L.rootStored ≠ .INHERIT ∧
    (c6L.storedLevel ≠ .INHERIT → c6L.getLevel? = some c6L.storedLevel) ∧
    (c6L.storedLevel = .INHERIT →
      ∃ c, c6L.nearestConcreteAncestorLevel = some c ∧
        c6L.getLevel? = some c) :=
  ⟨by decide, (claim_C6 c6L (by decide)).1, (claim_C6 c6L (by decide)).2⟩

/-- Claim C5 — counterexample to "emitting a message with level INHERIT
is ignored": on a root logger at WARN with one sink, the eager emission
at level INHERIT passes the filter (INHERIT's underlying value 7 exceeds
every concrete level) and the sink receives a write. -/
theorem claim_C5_counterexample :
    (LoggerNode.root .WARN [⟨0, .TRACE⟩] true).log? .INHERIT =
      some [⟨0, .TRACE⟩] ∧
    ([(⟨0, .TRACE⟩ : Sink)] : List Sink) ≠ [] := by
  decide

/-- Claim C5 (amended): calling setLevel(INHERIT) on the root logger
leaves the root's stored level unchanged, and neither operation throws
(both are total); but emitting a message with level INHERIT is NOT
ignored — it always passes the logger-level filter, so the fan-out of
`logEntry` runs unchanged. -/
theorem claim_C5_amended (L : LoggerNode) (eff l : LogLevel)
    (ss : List Sink) (a : Bool) (heff : L.getLevel? = some eff) :
    (LoggerNode.root l ss a).setLevel .INHERIT = LoggerNode.root l ss a ∧
    L.log? .INHERIT = some (L.logEntry .INHERIT) := by
  constructor
  · simp [LoggerNode.setLevel]
  · have hne : eff ≠ .INHERIT := getLevel?_ne_inherit L eff heff
    have hle : eff.toNat ≤ 6 := by
      cases eff <;> simp_all [LogLevel.toNat]
    unfold LoggerNode.log?
    rw [heff]
    have : ¬ LogLevel.INHERIT.toNat < eff.toNat := by
      have h7 : LogLevel.INHERIT.toNat = 7 := rfl
      omega
    simp [this]

/-- Witness for the amended C5 at a concrete logger. -/
theorem claim_C5_amended_witness :
    (LoggerNode.root .WARN [⟨0, .TRACE⟩] true).getLevel? = some .WARN ∧
    ((LoggerNode.root .INFO [] false).setLevel .INHERIT =
        LoggerNode.root .INFO [] false ∧
      (LoggerNode.root .WARN [⟨0, .TRACE⟩] true).log? .INHERIT =
        some ((LoggerNode.root .WARN [⟨0, .TRACE⟩] true).logEntry .INHERIT)) :=
  ⟨by decide,
    claim_C5_amended (LoggerNode.root .WARN [⟨0, .TRACE⟩] true) .WARN
      .INFO [] false (by decide)⟩

/-- Claim C4 — counterexample to "either emission operation below the
effective level has zero side effects": with the root at WARN and one
sink, the stream-based path at INFO still delivers a write, because the
level check only guards the eager path (and the call-site macro); the
stream destructor submits unconditionally. -/
theorem claim_C4_counterexample :
    LogLevel.INFO.toNat < LogLevel.WARN.toNat ∧
    (LoggerNode.root .WARN [⟨0, .TRACE⟩] true).getLevel? = some .WARN ∧
    ((LoggerNode.root .WARN [⟨0, .TRACE⟩] true).logStream .INFO
        log_context.default).dtorWrites = [⟨0, .TRACE⟩] ∧
    ([(⟨0, .TRACE⟩ : Sink)] : List Sink) ≠ [] := by
  decide

/-- Claim C4 (amended): for the eager message-based operation a level
strictly below the effective level is discarded before any entry
construction, formatting or sink write; the stream-based operation,
however, performs no level filtering itself — its destructor always
submits the accumulated entry through `logEntry`. -/
theorem claim_C4_amended (L : LoggerNode) (eff lvl : LogLevel)
    (ctx : log_context) (heff : L.getLevel? = some eff)
    (hlt : lvl.toNat < eff.toNat) :
    L.log? lvl = some [] ∧
    (L.logStream lvl ctx).dtorWrites = L.logEntry lvl := by
  constructor
  · unfold LoggerNode.log?
    rw [heff]
    simp [hlt]
  · rfl

/-- Witness for the amended C4: INFO below an effective WARN. -/
theorem claim_C4_amended_witness :
    (LoggerNode.root .WARN [⟨0, .TRACE⟩] true).getLevel? = some .WARN ∧
    LogLevel.INFO.toNat < LogLevel.WARN.toNat ∧
    ((LoggerNode.root .WARN [⟨0, .TRACE⟩] true).log? .INFO = some [] ∧
      ((LoggerNode.root .WARN [⟨0, .TRACE⟩] true).logStream .INFO
          log_context.default).dtorWrites =
        (LoggerNode.root .WARN [⟨0, .TRACE⟩] true).logEntry .INFO) :=
  ⟨by decide, by decide,
    claim_C4_amended (LoggerNode.root .WARN [⟨0, .TRACE⟩] true) .WARN .INFO
      log_context.default (by decide) (by decide)⟩

/-- Claim C2: the plain scenario (build the stream from
`logger.info() << "x=" << 5 << " done"` and let it go out of scope)
emits exactly one entry with message "x=5 done" — but the move scenario
refutes the moved-from/exactly-once part of the claim: the move
constructor is defaulted and the destructor submits unconditionally, so
after a move BOTH destructors emit — two `logEntry` calls (the second
with an empty message), and the moved-from stream's destructor performs
a real sink write.  The copy constructor, declared `= default`, is
implicitly deleted because the `std::basic_ostringstream` member is not
copyable, so the copy prohibition does hold. -/
theorem claim_C2 :
    scenarioPlainEmissions.length = 1 ∧
    scenarioPlainEmissions.map (fun e => e.msg) = ["x=5 done"] ∧
    scenarioPlainEmissions.map (fun e => e.level) = [.INFO] ∧
    scenarioMoveEmissions.length = 2 ∧
    scenarioMoveEmissions.length ≠ 1 ∧
    scenarioMoveEmissions.map (fun e => e.msg) = ["x=5 done", ""] ∧
    scenarioStream.moveCtor.2.dtorWrites = [⟨0, .TRACE⟩] := by
  decide

/-- Claim C3: the template formatter
[LoggerName(width 6, LEFT, fill '.'), " | ", Message] on an entry with
logger name "ab" and message "hi" does NOT render "ab.... | hi" as the
claim states: the missing `break` in the justification switch makes LEFT
behave as RIGHT, so the code renders "....ab | hi". -/
theorem claim_C3 :
    basic_template_formatter_format 0 c3Elems c3Entry = some "....ab | hi" ∧
    basic_template_formatter_format 0 c3Elems c3Entry ≠ some "ab.... | hi" := by
  decide

/-- Claim C9: the default formatter renders an entry as the level's
printed name, " - ", the message and a newline; in particular a FATAL
entry with message "boom" renders exactly "FATAL - boom\n". -/
theorem claim_C9 :
    basic_formatter_format c9Entry = "FATAL - boom\n" ∧
    ∀ e : basic_log_entry,
      basic_formatter_format e = e.level.text ++ " - " ++ e.msg ++ "\n" :=
  ⟨by decide, fun _ => rfl⟩

/-- Helper: `lastIdxOf` finds nothing exactly when the character does not
occur (the null-return case of `strrchr`). -/
theorem lastIdxOf_eq_none_iff (c : Char) (s : List Char) :
    lastIdxOf c s = none ↔ c ∉ s := by
  induction s with
  | nil => simp [lastIdxOf]
  | cons a as ih =>
    simp only [lastIdxOf]
    cases h2 : lastIdxOf c as with
    | some i =>
      have : c ∈ as := by
        by_contra hc
        rw [← ih] at hc
        rw [hc] at h2
        cases h2
      simp [this]
    | none =>
      have has : c ∉ as := ih.mp h2
      by_cases ha : a = c <;> simp [ha, has]
      exact fun h => ha h.symm

/-- Claim C10: rendering the FileName field is only defined when the
entry's filename contains a path separator — `strrchr` returns null
otherwise and the code computes null + 1 — and the default-constructed
`log_context` (empty filename) falls in the undefined case, so the field
renderer is a partial function over the public entry type. -/
theorem claim_C10 :
    (∀ (e : basic_log_entry) (ms w : Nat) (j : Justification) (f : Char),
      (basic_field_stream ms .FileName w j f e).isSome = true ↔
        '/' ∈ e.filename.data) ∧
    basic_field_stream 0 .FileName 0 .RIGHT ' '
      (basic_log_entry.make log_context.default (.root .WARN [] true)
        .INFO) = none := by
  constructor
  · intro e ms w j f
    unfold basic_field_stream fieldText
    cases h : lastIdxOf '/' e.filename.data with
    | none =>
      simp only [h, Option.map_none']
      simp only [Option.isSome_none, Bool.false_eq_true, false_iff]
      exact (lastIdxOf_eq_none_iff '/' e.filename.data).mp h
    | some i =>
      simp only [h, Option.map_some']
      simp only [Option.isSome_some, true_iff]
      by_contra hc
      rw [← lastIdxOf_eq_none_iff] at hc
      rw [hc] at h
      cases h
  · decide

/-- Helper: the index returned by `lastIdxOf` is in range. -/
theorem lastIdxOf_lt_length (c : Char) (s : List Char) (k : Nat)
    (h : lastIdxOf c s = some k) : k < s.length := by
  induction s generalizing k with
  | nil => simp [lastIdxOf] at h
  | cons a as ih =>
    simp only [lastIdxOf] at h
    cases h2 : lastIdxOf c as with
    | some i =>
      rw [h2] at h
      have hik : i + 1 = k := by simpa using h
      have := ih i h2
      simp only [List.length_cons]
      omega
    | none =>
      rw [h2] at h
      by_cases ha : a = c
      · have hk0 : k = 0 := by simp [ha] at h; omega
        simp only [hk0, List.length_cons]
        omega
      · simp [ha] at h

/-- Helper: `lastIdxOf` splits the list at the LAST occurrence — the part
after the found index contains no further occurrence. -/
theorem lastIdxOf_split (c : Char) (s : List Char) (k : Nat)
    (h : lastIdxOf c s = some k) :
    s = s.take k ++ c :: s.drop (k + 1) ∧ c ∉ s.drop (k + 1) := by
  induction s generalizing k with
  | nil => simp [lastIdxOf] at h
  | cons a as ih =>
    simp only [lastIdxOf] at h
    cases h2 : lastIdxOf c as with
    | some i =>
      rw [h2] at h
      have hik : i + 1 = k := by simpa using h
      obtain ⟨ha1, ha2⟩ := ih i h2
      subst hik
      refine ⟨?_, ?_⟩
      · calc a :: as = a :: (as.take i ++ c :: as.drop (i + 1)) := by rw [← ha1]
          _ = (a :: as).take (i + 1) ++ c :: (a :: as).drop (i + 1 + 1) := by
              simp [List.take_succ_cons, List.drop_succ_cons]
      · simpa [List.drop_succ_cons] using ha2
    | none =>
      rw [h2] at h
      by_cases ha : a = c
      · have hk0 : k = 0 := by simp [ha] at h; omega
        subst hk0
        have has : c ∉ as := (lastIdxOf_eq_none_iff c as).mp h2
        simp [ha, has]
      · simp [ha] at h

/-- Helper: the longest-proper-dotted-prefix reading of `parentName`:
a dot-free name has the empty parent name, and a name containing a dot
splits as its parent name, a dot, and a dot-free remainder. -/
theorem parentName_spec (s : CName) :
    ('.' ∉ s → parentName s = []) ∧
    ('.' ∈ s → ∃ t, s = parentName s ++ '.' :: t ∧ '.' ∉ t) := by
  constructor
  · intro h
    unfold parentName
    rw [(lastIdxOf_eq_none_iff '.' s).mpr h]
  · intro h
    cases hidx : lastIdxOf '.' s with
    | none => exact absurd ((lastIdxOf_eq_none_iff '.' s).mp hidx) (by simp [h])
    | some k =>
      obtain ⟨h1, h2⟩ := lastIdxOf_split '.' s k hidx
      refine ⟨s.drop (k + 1), ?_, h2⟩
      unfold parentName
      rw [hidx]
      exact h1

/-- Helper: `parentName` strictly shortens nonempty names. -/
theorem parentName_length_lt (s : CName) (hs : s ≠ []) :
    (parentName s).length < s.length := by
  unfold parentName
  cases hidx : lastIdxOf '.' s with
  | none => simpa using List.length_pos.mpr hs
  | some k =>
    have hk := lastIdxOf_lt_length '.' s k hidx
    simp only [List.length_take]
    omega

/-- Helper: unfolding `dottedPrefixChain` at the empty name. -/
theorem dottedPrefixChain_nil : dottedPrefixChain [] = [] := by
  unfold dottedPrefixChain
  simp

/-- Helper: unfolding `dottedPrefixChain` at a nonempty name. -/
theorem dottedPrefixChain_cons (s : CName) (hs : s ≠ []) :
    dottedPrefixChain s = s :: dottedPrefixChain (parentName s) := by
  rw [dottedPrefixChain]
  simp [hs]

/-- Helper: members of the dotted prefix chain are nonempty and no longer
than the name. -/
theorem mem_dottedPrefixChain_le (n : Nat) (s : CName) (hn : s.length ≤ n)
    (p : CName) (hp : p ∈ dottedPrefixChain s) :
    p.length ≤ s.length ∧ p ≠ [] := by
  induction n generalizing s with
  | zero =>
    have h0 : s = [] := by
      cases s with
      | nil => rfl
      | cons a as => simp at hn
    rw [h0, dottedPrefixChain_nil] at hp
    cases hp
  | succ n ih =>
    by_cases h0 : s = []
    · rw [h0, dottedPrefixChain_nil] at hp
      cases hp
    · rw [dottedPrefixChain_cons s h0] at hp
      rcases List.mem_cons.mp hp with h | h
      · exact ⟨h ▸ le_refl _, h ▸ h0⟩
      · have hlt := parentName_length_lt s h0
        have := ih (parentName s) (by omega) h
        exact ⟨by omega, this.2⟩

/-- Helper: a successful registry lookup returns a registered logger with
the requested name. -/
theorem findName?_some (reg : Registry) (nm : CName) (l : RegLogger)
    (h : reg.findName? nm = some l) : l ∈ reg.loggers ∧ l.name = nm := by
  unfold Registry.findName? at h
  refine ⟨List.mem_of_find?_eq_some h, ?_⟩
  have h2 := List.find?_some h
  simpa using h2

/-- Helper: a failed registry lookup means no registered logger has the
requested name. -/
theorem findName?_none (reg : Registry) (nm : CName)
    (h : reg.findName? nm = none) : ∀ l, l ∈ reg.loggers → l.name ≠ nm := by
  intro l hl
  unfold Registry.findName? at h
  have := List.find?_eq_none.mp h l hl
  simpa using this

/-- Helper: under distinct names, lookup finds exactly the registered
logger of that name. -/
theorem find?_name_eq (ls : List RegLogger) (nm : CName) (l : RegLogger)
    (hn : (ls.map (fun x => x.name)).Nodup) (hl : l ∈ ls)
    (hname : l.name = nm) :
    ls.find? (fun x => decide (x.name = nm)) = some l := by
  induction ls with
  | nil => cases hl
  | cons a as ih =>
    simp only [List.map_cons, List.nodup_cons] at hn
    rcases List.mem_cons.mp hl with h | h
    · subst h
      exact List.find?_cons_of_pos _ (by simp [hname])
    · have hne : ¬ a.name = nm := by
        intro he
        exact hn.1 (List.mem_map.mpr ⟨l, h, by rw [hname, he]⟩)
      rw [List.find?_cons_of_neg _ (by simp [hne])]
      exact ih hn.2 h

/-- Helper: `getLogger` on the empty (root) name. -/
theorem getLogger_nil (reg : Registry) : reg.getLogger [] = (0, reg) := by
  unfold Registry.getLogger
  simp

/-- Helper: `getLogger` on a registered name returns it untouched. -/
theorem getLogger_found (reg : Registry) (nm : CName) (l : RegLogger)
    (h0 : nm ≠ []) (hf : reg.findName? nm = some l) :
    reg.getLogger nm = (l.rid, reg) := by
  unfold Registry.getLogger
  simp [h0, hf]

/-- Helper: `getLogger` on a fresh dot-free name registers it under the
root. -/
theorem getLogger_new_nodot (reg : Registry) (nm : CName) (h0 : nm ≠ [])
    (hf : reg.findName? nm = none) (hd : lastIdxOf '.' nm = none) :
    reg.getLogger nm = reg.insertNew nm 0 := by
  unfold Registry.getLogger
  simp only [if_neg h0, hf]
  split
  · rfl
  · next k heq =>
      rw [hd] at heq
      simp at heq

/-- Helper: `getLogger` on a fresh dotted name first resolves the parent
recursively and then registers the name under it. -/
theorem getLogger_new_dot (reg : Registry) (nm : CName) (k : Nat)
    (h0 : nm ≠ []) (hf : reg.findName? nm = none)
    (hd : lastIdxOf '.' nm = some k) :
    reg.getLogger nm =
      (reg.getLogger (nm.take k)).2.insertNew nm
        (reg.getLogger (nm.take k)).1 := by
  conv_lhs => unfold Registry.getLogger
  simp only [if_neg h0, hf]
  split
  · next heq =>
      rw [hd] at heq
      simp at heq
  · next k2 heq =>
      rw [hd] at heq
      simp only [Option.some.injEq] at heq
      subst heq
      rfl

/-- Helper: under the prefix-parent invariant, every dotted prefix of a
registered name is itself registered. -/
theorem registered_closure (reg : Registry) (hpi : reg.parentInv) :
    ∀ (n : Nat) (s : CName), s.length ≤ n → reg.registered s →
    ∀ p, p ∈ dottedPrefixChain s → reg.registered p := by
  intro n
  induction n with
  | zero =>
    intro s hlen hreg p hp
    have h0 : s = [] := by
      cases s with
      | nil => rfl
      | cons a as => simp at hlen
    rw [h0, dottedPrefixChain_nil] at hp
    cases hp
  | succ n ih =>
    intro s hlen hreg p hp
    by_cases h0 : s = []
    · rw [h0, dottedPrefixChain_nil] at hp
      cases hp
    · rw [dottedPrefixChain_cons s h0] at hp
      rcases List.mem_cons.mp hp with h | h
      · exact h ▸ hreg
      · by_cases hpn : parentName s = []
        · rw [hpn, dottedPrefixChain_nil] at h
          cases h
        · obtain ⟨l, hl, hlname⟩ := hreg
          obtain ⟨-, h2⟩ := hpi l hl
          obtain ⟨m, hm, hmname, -⟩ := h2 (by rw [hlname]; exact hpn)
          have hregp : reg.registered (parentName s) :=
            ⟨m, hm, by rw [hmname, hlname]⟩
          have hlt := parentName_length_lt s h0
          exact ih (parentName s) (by omega) hregp p h

/-- Helper: registering a fresh name preserves well-formedness and the
prefix-parent invariant, and grows the registered-name set by exactly that
name. -/
theorem insertNew_post (reg1 : Registry) (nm : CName) (pid : Nat)
    (hwf1 : reg1.wf) (hpi1 : reg1.parentInv) (h0 : nm ≠ [])
    (hnotin : ∀ l, l ∈ reg1.loggers → l.name ≠ nm)
    (hpid1 : parentName nm = [] → pid = 0)
    (hpid2 : parentName nm ≠ [] →
      ∃ m, m ∈ reg1.loggers ∧ m.name = parentName nm ∧ pid = m.rid) :
    (reg1.insertNew nm pid).2.wf ∧
    (reg1.insertNew nm pid).2.parentInv ∧
    reg1.nextId ≤ (reg1.insertNew nm pid).2.nextId ∧
    (reg1.insertNew nm pid).2.loggers =
      reg1.loggers ++ [⟨reg1.nextId, nm, pid, .INHERIT, true⟩] ∧
    (reg1.insertNew nm pid).1 = reg1.nextId ∧
    (∀ p, (reg1.insertNew nm pid).2.registered p ↔
      (reg1.registered p ∨ p = nm)) := by
  obtain ⟨hnd, hnnil, hid, hone⟩ := hwf1
  refine ⟨⟨?_, ?_, ?_, ?_⟩, ?_, ?_, rfl, rfl, ?_⟩
  · -- names stay distinct
    simp only [Registry.insertNew, List.map_append, List.map_cons,
      List.map_nil]
    rw [List.nodup_append]
    refine ⟨hnd, List.nodup_singleton _, ?_⟩
    intro x hx hx2
    simp only [List.mem_singleton] at hx2
    obtain ⟨l, hl, hlx⟩ := List.mem_map.mp hx
    exact hnotin l hl (by rw [hlx, hx2])
  · -- names stay nonempty
    intro l hl
    simp only [Registry.insertNew, List.mem_append, List.mem_singleton] at hl
    rcases hl with hl | hl
    · exact hnnil l hl
    · rw [hl]
      exact h0
  · -- identities stay positive and below the counter
    intro l hl
    simp only [Registry.insertNew, List.mem_append, List.mem_singleton] at hl
    simp only [Registry.insertNew]
    rcases hl with hl | hl
    · have := hid l hl
      omega
    · rw [hl]
      simp only []
      omega
  · simp only [Registry.insertNew]
    omega
  · -- prefix-parent invariant
    intro l hl
    simp only [Registry.insertNew, List.mem_append, List.mem_singleton] at hl
    rcases hl with hl | hl
    · obtain ⟨hc1, hc2⟩ := hpi1 l hl
      refine ⟨hc1, fun hpn => ?_⟩
      obtain ⟨m, hm, hmn, hmr⟩ := hc2 hpn
      exact ⟨m, by
        simp only [Registry.insertNew, List.mem_append]
        exact Or.inl hm, hmn, hmr⟩
    · subst hl
      refine ⟨fun hpn => hpid1 hpn, fun hpn => ?_⟩
      obtain ⟨m, hm, hmn, hmr⟩ := hpid2 hpn
      exact ⟨m, by
        simp only [Registry.insertNew, List.mem_append]
        exact Or.inl hm, hmn, hmr⟩
  · simp only [Registry.insertNew]
    omega
  · -- registered names grow by exactly nm
    intro p
    unfold Registry.registered
    simp only [Registry.insertNew, List.mem_append, List.mem_singleton]
    constructor
    · rintro ⟨l, hl | hl, hlname⟩
      · exact Or.inl ⟨l, hl, hlname⟩
      · subst hl
        exact Or.inr hlname.symm
    · rintro (⟨l, hl, hlname⟩ | h)
      · exact ⟨l, Or.inl hl, hlname⟩
      · exact ⟨⟨reg1.nextId, nm, pid, .INHERIT, true⟩, Or.inr rfl, h.symm⟩

/-- Helper: the full postcondition of `getLogger`, by strong induction on
the length of the requested name. -/
theorem getLogger_post : ∀ (n : Nat) (name : CName), name.length ≤ n →
    ∀ reg : Registry, reg.wf → reg.parentInv →
    GLPost reg name (reg.getLogger name) := by
  intro n
  induction n with
  | zero =>
    intro name hlen reg hwf hpi
    have h0 : name = [] := by
      cases name with
      | nil => rfl
      | cons a as => simp at hlen
    subst h0
    rw [getLogger_nil]
    refine ⟨hwf, hpi, le_refl _, ⟨[], by simp, by simp⟩,
      fun _ => ⟨rfl, rfl⟩, fun h => absurd rfl h, fun p => ?_⟩
    rw [dottedPrefixChain_nil]
    simp
  | succ n ih =>
    intro name hlen reg hwf hpi
    by_cases h0 : name = []
    · subst h0
      rw [getLogger_nil]
      refine ⟨hwf, hpi, le_refl _, ⟨[], by simp, by simp⟩,
        fun _ => ⟨rfl, rfl⟩, fun h => absurd rfl h, fun p => ?_⟩
      rw [dottedPrefixChain_nil]
      simp
    · cases hf : reg.findName? name with
      | some l =>
        rw [getLogger_found reg name l h0 hf]
        obtain ⟨hl, hname⟩ := findName?_some reg name l hf
        refine ⟨hwf, hpi, le_refl _, ⟨[], by simp, by simp⟩,
          fun h => absurd h h0, fun _ => ⟨l, hl, hname, rfl⟩, fun p => ?_⟩
        constructor
        · exact fun h => Or.inl h
        · rintro (h | h)
          · exact h
          · exact registered_closure reg hpi name.length name (le_refl _)
              ⟨l, hl, hname⟩ p h
      | none =>
        have hnotin0 := findName?_none reg name hf
        cases hd : lastIdxOf '.' name with
        | none =>
          rw [getLogger_new_nodot reg name h0 hf hd]
          have hpn : parentName name = [] := by
            unfold parentName
            rw [hd]
          have hchain : dottedPrefixChain name = [name] := by
            rw [dottedPrefixChain_cons name h0, hpn, dottedPrefixChain_nil]
          obtain ⟨hwf2, hpi2, hmono2, hlog2, hfst2, hreg2⟩ :=
            insertNew_post reg name 0 hwf hpi h0 hnotin0
              (fun _ => rfl) (fun hx => absurd hpn hx)
          refine ⟨hwf2, hpi2, hmono2,
            ⟨[⟨reg.nextId, name, 0, .INHERIT, true⟩], hlog2, ?_⟩,
            fun h => absurd h h0, fun _ => ?_, fun p => ?_⟩
          · intro l hl
            simp only [List.mem_singleton] at hl
            subst hl
            exact ⟨by rw [hchain]; simp, le_refl _⟩
          · refine ⟨⟨reg.nextId, name, 0, .INHERIT, true⟩, ?_, rfl, ?_⟩
            · rw [hlog2]
              simp
            · rw [hfst2]
          · rw [hreg2 p, hchain]
            simp
        | some k =>
          have hk := lastIdxOf_lt_length '.' name k hd
          have hklen : (name.take k).length = k := by
            simp only [List.length_take]
            omega
          have hrec := ih (name.take k) (by omega) reg hwf hpi
          obtain ⟨hwf1, hpi1, hmono1, ⟨tail1, htl1, htlprop⟩, hnil1, hne1,
            hregiff1⟩ := hrec
          have hpn : parentName name = name.take k := by
            unfold parentName
            rw [hd]
          have hchain : dottedPrefixChain name =
              name :: dottedPrefixChain (name.take k) := by
            rw [dottedPrefixChain_cons name h0, hpn]
          have hnotin1 : ∀ l,
              l ∈ (reg.getLogger (name.take k)).2.loggers →
              l.name ≠ name := by
            intro l hl
            rw [htl1] at hl
            rcases List.mem_append.mp hl with h | h
            · exact hnotin0 l h
            · obtain ⟨hc, -⟩ := htlprop l h
              have := mem_dottedPrefixChain_le (name.take k).length
                (name.take k) (le_refl _) l.name hc
              intro he
              rw [he, hklen] at this
              omega
          have hpid1 : parentName name = [] →
              (reg.getLogger (name.take k)).1 = 0 := by
            intro hx
            rw [hpn] at hx
            exact (hnil1 hx).1
          have hpid2 : parentName name ≠ [] →
              ∃ m, m ∈ (reg.getLogger (name.take k)).2.loggers ∧
                m.name = parentName name ∧
                (reg.getLogger (name.take k)).1 = m.rid := by
            intro hx
            rw [hpn] at hx
            obtain ⟨m, hm, hmn, hmr⟩ := hne1 hx
            exact ⟨m, hm, by rw [hmn, hpn], hmr.symm⟩
          obtain ⟨hwf2, hpi2, hmono2, hlog2, hfst2, hreg2⟩ :=
            insertNew_post (reg.getLogger (name.take k)).2 name
              (reg.getLogger (name.take k)).1 hwf1 hpi1 h0 hnotin1
              hpid1 hpid2
          rw [getLogger_new_dot reg name k h0 hf hd]
          set newL : RegLogger :=
            ⟨(reg.getLogger (name.take k)).2.nextId, name,
              (reg.getLogger (name.take k)).1, .INHERIT, true⟩ with hnewL
          refine ⟨hwf2, hpi2, le_trans hmono1 hmono2,
            ⟨tail1 ++ [newL], ?_, ?_⟩,
            fun h => absurd h h0, fun _ => ?_, fun p => ?_⟩
          · rw [hlog2, htl1, List.append_assoc]
          · intro l hl
            rcases List.mem_append.mp hl with h | h
            · obtain ⟨hc, hr⟩ := htlprop l h
              exact ⟨by rw [hchain]; exact List.mem_cons_of_mem _ hc, hr⟩
            · simp only [List.mem_singleton] at h
              subst h
              refine ⟨by rw [hchain]; exact List.mem_cons_self _ _, ?_⟩
              exact le_trans hmono1 (le_refl _)
          · refine ⟨newL, ?_, rfl, ?_⟩
            · rw [hlog2]
              simp
            · rw [hfst2]
          · rw [hreg2 p, hregiff1 p, hchain]
            simp only [List.mem_cons]
            tauto

/-- Helper: every registry reached from the initial state by `getLogger`
calls is well-formed and satisfies the prefix-parent invariant. -/
theorem runGetLoggers_inv (names : List CName) :
    (runGetLoggers names).wf ∧ (runGetLoggers names).parentInv := by
  have hstep : ∀ (ns : List CName) (r : Registry), r.wf → r.parentInv →
      (ns.foldl (fun r nm => (r.getLogger nm).2) r).wf ∧
      (ns.foldl (fun r nm => (r.getLogger nm).2) r).parentInv := by
    intro ns
    induction ns with
    | nil => exact fun r hw hp => ⟨hw, hp⟩
    | cons a as ih =>
      intro r hw hp
      have hpost := getLogger_post a.length a (le_refl _) r hw hp
      exact ih (r.getLogger a).2 hpost.1 hpost.2.1
  exact hstep names Registry.empty (by decide) (by decide)

/-- Claim C7: `getLogger` is idempotent — a second call with the same
name returns the identical logger instance (same identity) and leaves the
registry unchanged; the returned instance is the unique logger registered
for that name (the empty name returning the root identity, which is kept
outside the registry map). -/
theorem claim_C7 (reg : Registry) (name : CName) (hwf : reg.wf)
    (hpi : reg.parentInv) :
    (reg.getLogger name).2.getLogger name =
      ((reg.getLogger name).1, (reg.getLogger name).2) ∧
    (name ≠ [] → ∃ l, (l ∈ (reg.getLogger name).2.loggers ∧
        l.name = name ∧ l.rid = (reg.getLogger name).1) ∧
      ∀ l', l' ∈ (reg.getLogger name).2.loggers → l'.name = name →
        l' = l) ∧
    (name = [] → (reg.getLogger name).1 = 0) := by
  obtain ⟨hwf1, hpi1, -, -, hnil, hne, -⟩ :=
    getLogger_post name.length name (le_refl _) reg hwf hpi
  by_cases h0 : name = []
  · subst h0
    obtain ⟨h1, -⟩ := hnil rfl
    refine ⟨?_, fun h => absurd rfl h, fun _ => h1⟩
    rw [getLogger_nil, h1]
  · obtain ⟨l, hl, hlname, hlrid⟩ := hne h0
    have hfind : (reg.getLogger name).2.findName? name = some l :=
      find?_name_eq (reg.getLogger name).2.loggers name l hwf1.1 hl hlname
    refine ⟨?_, fun _ => ⟨l, ⟨hl, hlname, hlrid⟩, ?_⟩,
      fun h => absurd h h0⟩
    · rw [getLogger_found (reg.getLogger name).2 name l h0 hfind, hlrid]
    · intro l' hl' hlname'
      exact List.inj_on_of_nodup_map hwf1.1 hl' hl (by rw [hlname', hlname])

/-- Witness for C7: looking up "a.b" twice in the empty registry. -/
theorem claim_C7_witness :
    Registry.empty.wf ∧ Registry.empty.parentInv ∧
    ((Registry.empty.getLogger ['a', '.', 'b']).2.getLogger
        ['a', '.', 'b'] =
      ((Registry.empty.getLogger ['a', '.', 'b']).1,
        (Registry.empty.getLogger ['a', '.', 'b']).2) ∧
    (['a', '.', 'b'] ≠ ([] : CName) → ∃ l,
        (l ∈ (Registry.empty.getLogger ['a', '.', 'b']).2.loggers ∧
          l.name = ['a', '.', 'b'] ∧
          l.rid = (Registry.empty.getLogger ['a', '.', 'b']).1) ∧
      ∀ l', l' ∈ (Registry.empty.getLogger ['a', '.', 'b']).2.loggers →
        l'.name = ['a', '.', 'b'] → l' = l) ∧
    (['a', '.', 'b'] = ([] : CName) →
      (Registry.empty.getLogger ['a', '.', 'b']).1 = 0)) :=
  ⟨by decide, by decide,
    claim_C7 Registry.empty ['a', '.', 'b'] (by decide) (by decide)⟩

/-- Claim C8: one `getLogger` call creates exactly one registry node per
dot-separated prefix of the requested name — afterwards the registered
names are the previously registered ones plus the whole dotted prefix
chain, names remain distinct (each prefix has exactly one node) — and
the prefix-parent invariant holds for every logger: each one's parent
reference is the logger of its longest proper dotted prefix (`parentName`,
characterised by the splitting property below, the root for prefix-free
names); the invariant holds after any sequence of `getLogger` calls from
the initial state. -/
theorem claim_C8 (reg : Registry) (name : CName) (hwf : reg.wf)
    (hpi : reg.parentInv) :
    (reg.getLogger name).2.wf ∧
    (reg.getLogger name).2.parentInv ∧
    (∀ p, (reg.getLogger name).2.registered p ↔
      (reg.registered p ∨ p ∈ dottedPrefixChain name)) ∧
    ((reg.getLogger name).2.loggers.map (fun l => l.name)).Nodup ∧
    (∀ s : CName,
      ('.' ∉ s → parentName s = []) ∧
      ('.' ∈ s → ∃ t, s = parentName s ++ '.' :: t ∧ '.' ∉ t)) ∧
    (∀ names : List CName,
      (runGetLoggers names).wf ∧ (runGetLoggers names).parentInv) := by
  obtain ⟨hwf1, hpi1, -, -, -, -, hregiff⟩ :=
    getLogger_post name.length name (le_refl _) reg hwf hpi
  exact ⟨hwf1, hpi1, hregiff, hwf1.1, parentName_spec, runGetLoggers_inv⟩

/-- Witness for C8: creating "a.b.c" in the empty registry. -/
theorem claim_C8_witness :
    Registry.empty.wf ∧ Registry.empty.parentInv ∧
    ((Registry.empty.getLogger ['a', '.', 'b', '.', 'c']).2.wf ∧
    (Registry.empty.getLogger ['a', '.', 'b', '.', 'c']).2.parentInv ∧
    (∀ p, (Registry.empty.getLogger ['a', '.', 'b', '.', 'c']).2.registered
        p ↔
      (Registry.empty.registered p ∨
        p ∈ dottedPrefixChain ['a', '.', 'b', '.', 'c'])) ∧
    ((Registry.empty.getLogger
        ['a', '.', 'b', '.', 'c']).2.loggers.map (fun l => l.name)).Nodup ∧
    (∀ s : CName,
      ('.' ∉ s → parentName s = []) ∧
      ('.' ∈ s → ∃ t, s = parentName s ++ '.' :: t ∧ '.' ∉ t)) ∧
    (∀ names : List CName,
      (runGetLoggers names).wf ∧ (runGetLoggers names).parentInv)) :=
  ⟨by decide, by decide,
    claim_C8 Registry.empty ['a', '.', 'b', '.', 'c'] (by decide)
      (by decide)⟩
